import Mathlib

/-!
Verification development for the cross-referencing / introspection core of a
markup-to-document compiler, together with its image store.

The image handling (`ImageStore`, `Image`, `Svg`, `RasterImage`) is embedded
from `src/image.rs`.  The cross-referencing core (Location, State, Counter,
Numbering, label registry, fixed-point driver) is present in the repository
only as module declarations (`library/src/meta/mod.rs`); its bodies are not
part of the visible sources, so those components are modelled from the
specification, as marked on each definition.
-/

set_option autoImplicit false

namespace Typst

/-! ## Image handling, embedded from `src/image.rs` -/

/-- A file hash produced by `Loader::resolve` (`crate::loading::FileHash`),
kept abstract as a natural number. -/
abbrev FileHash := Nat

/-- A file path, kept abstract as a string. -/
abbrev FilePath := String

/-- A raw data buffer (`&[u8]`). -/
abbrev Buffer := List Nat

/-- The kinds of `std::io::ErrorKind` that `image.rs` distinguishes. -/
inductive ErrKind where
  | invalidData
  | other
  | notFound
deriving DecidableEq, Repr

/-- A `std::io::Error`: a kind plus a message. -/
structure IoError where
  kind : ErrKind
  msg : String
deriving DecidableEq, Repr

/-- The error type of `usvg::Tree::from_data` (`usvg::Error`), as matched in
`Svg::parse`. -/
inductive UsvgError where
  | notAnUtf8Str
  | malformedGZip
  | elementsLimitReached
  | invalidSize
  | parsingFailed (msg : String)
deriving DecidableEq, Repr

/-- An opaque parsed SVG tree (`usvg::Tree`), kept abstract. -/
abbrev SvgTree := Nat

/-- An opaque decoded raster buffer (`image::DynamicImage`), kept abstract. -/
abbrev DynamicImage := Nat

/-- A raster image format (`image::ImageFormat`), kept abstract. -/
abbrev ImageFormat := Nat

/-- An SVG image: `pub struct Svg(pub Tree)`. -/
structure Svg where
  tree : SvgTree
deriving DecidableEq, Repr

/-- A raster image: `pub struct RasterImage { format, buf }`. -/
structure RasterImage where
  format : ImageFormat
  buf : DynamicImage
deriving DecidableEq, Repr

/-- A loaded image: `pub enum Image { Raster(RasterImage), Svg(Svg) }`. -/
inductive Image where
  | raster (image : RasterImage)
  | svg (image : Svg)
deriving DecidableEq, Repr

/-- The external collaborators of `image.rs`: the `Loader` (`resolve`, `load`),
`usvg::Tree::from_data`, and the `image` crate's format guessing and decoding.
Their behaviour is arbitrary; the embedding is parametrised over it. -/
structure ImageEnv where
  resolve : FilePath → Except IoError FileHash
  loadData : FilePath → Except IoError Buffer
  treeFromData : Buffer → Except UsvgError SvgTree
  guessFormat : Buffer → Except IoError (Option ImageFormat)
  decode : Buffer → Except String DynamicImage

namespace Svg

/-- `Svg::parse`: calls `usvg::Tree::from_data` and maps each `usvg::Error`
variant to an `io::Error` exactly as in `src/image.rs` lines 141-166. -/
def parse (env : ImageEnv) (data : Buffer) : Except IoError Svg :=
  match env.treeFromData data with
  | .error .notAnUtf8Str =>
      .error ⟨.invalidData, "file is not valid utf-8"⟩
  | .error .malformedGZip =>
      .error ⟨.invalidData, "could not extract gzipped SVG"⟩
  | .error .elementsLimitReached =>
      .error ⟨.other, "SVG file has more than 1 million elements"⟩
  | .error .invalidSize =>
      .error ⟨.invalidData, "SVG width or height not greater than zero"⟩
  | .error (.parsingFailed e) =>
      .error ⟨.invalidData, "SVG parsing error: " ++ e⟩
  | .ok tree => .ok ⟨tree⟩

end Svg

namespace RasterImage

/-- `RasterImage::parse`: guesses the format via the `image` crate, fails with
an `InvalidData` error if the format is unknown or decoding fails
(`src/image.rs` lines 201-213). -/
def parse (env : ImageEnv) (data : Buffer) : Except IoError RasterImage :=
  match env.guessFormat data with
  | .error e => .error e
  | .ok none => .error ⟨.invalidData, "unknown image format"⟩
  | .ok (some format) =>
      match env.decode data with
      | .error err => .error ⟨.invalidData, err⟩
      | .ok buf => .ok ⟨format, buf⟩

end RasterImage

namespace Image

/-- `Image::parse` (`src/image.rs` lines 101-109): try SVG first; fall back to
raster decoding only when the SVG error kind is `InvalidData`; propagate any
other SVG error unchanged. -/
def parse (env : ImageEnv) (data : Buffer) : Except IoError Image :=
  match Svg.parse env data with
  | .ok s => .ok (.svg s)
  | .error e =>
      if e.kind = .invalidData then
        match RasterImage.parse env data with
        | .ok r => .ok (.raster r)
        | .error e₂ => .error e₂
      else
        .error e

end Image

/-- A raw `ImageId` value (`u32` inside `pub struct ImageId(u32)`); `into_raw`
exposes exactly this number. -/
abbrev ImageId := Nat

/-- `ImageStore` (`src/image.rs` lines 36-41): the `HashMap<FileHash, ImageId>`
is modelled as an association list and the image vector as a list.  The
`loader` field lives in `ImageEnv`; the `on_load` callback only produces
external side effects and does not influence the store. -/
structure ImageStore where
  files : List (FileHash × ImageId)
  images : List Image
deriving DecidableEq, Repr

/-- Lookup in the `files` map of an `ImageStore` (first matching entry). -/
def lookupHash (files : List (FileHash × ImageId)) (h : FileHash) : Option ImageId :=
  match files with
  | [] => none
  | e :: rest => if e.1 = h then some e.2 else lookupHash rest h

namespace ImageStore

/-- `ImageStore::new`: an empty store. -/
def new : ImageStore := ⟨[], []⟩

/-- `ImageStore::load` (`src/image.rs` lines 63-78): resolve the path to a
file hash; an occupied map entry returns the cached id untouched, a vacant one
loads the buffer, parses it, assigns `images.len() as u32` as the fresh id
(the `u32` cast is the reduction modulo `2^32`) and pushes the image. -/
def load (env : ImageEnv) (s : ImageStore) (path : FilePath) :
    Except IoError (ImageId × ImageStore) :=
  match env.resolve path with
  | .error e => .error e
  | .ok hash =>
      match lookupHash s.files hash with
      | some id => .ok (id, s)
      | none =>
          match env.loadData path with
          | .error e => .error e
          | .ok buffer =>
              match Image.parse env buffer with
              | .error e => .error e
              | .ok image =>
                  let id : ImageId := s.images.length % 2 ^ 32
                  .ok (id, ⟨s.files ++ [(hash, id)], s.images ++ [image]⟩)

/-- `ImageStore::get` (`src/image.rs` lines 86-88): index the image vector;
an out-of-bounds access panics, modelled as `none`. -/
def get (s : ImageStore) (id : ImageId) : Option Image :=
  s.images.get? id

/-- Store well-formedness: every id recorded in the `files` map indexes into
the image vector. -/
def WF (s : ImageStore) : Prop :=
  ∀ e ∈ s.files, e.2 < s.images.length

end ImageStore

/-! ## Cross-referencing core

The modules `counter`, `state`, `numbering`, `reference` and the driver are
declared in `library/src/meta/mod.rs` but their bodies are not part of the
visible sources; the definitions below are modelled from the specification. -/

/-- Modelled from the spec: a `Location` is an ordered path of small integers
(one per nesting level) plus a discriminator distinguishing repeated
compilation of the same content; Locations are totally ordered
lexicographically.  The body of the location type is not under `src/`. -/
structure Location where
  path : List Nat
  disc : Nat
deriving DecidableEq, Repr

/-- Lexicographic `≤` on integer paths. -/
def pathLe : List Nat → List Nat → Bool
  | [], _ => true
  | _ :: _, [] => false
  | a :: as, b :: bs => if a < b then true else if b < a then false else pathLe as bs

/-- Modelled from the spec: total lexicographic order on Locations — first the
path, then the discriminator. -/
def Location.le (a b : Location) : Bool :=
  if a.path = b.path then decide (a.disc ≤ b.disc) else pathLe a.path b.path

/-- The name identifying a `State`/`Counter` instance. -/
abbrev StateName := String

/-- Modelled from the spec: an update recorded against a counter's log — a
plain "set to value", or the apply-updates the counter specialisation uses:
`step` (increment one component, zero the deeper ones) and `reset` (zero a
component and all deeper ones).  The `state`/`counter` module bodies are not
under `src/`. -/
inductive Update where
  | set (value : List Int)
  | step (level : Nat) (amount : Int)
  | reset (level : Nat)
deriving DecidableEq, Repr

/-- Replace every component of a counter vector by zero. -/
def zeroAll (v : List Int) : List Int := v.map fun _ => 0

/-- Modelled from the spec: `step` increments component `level` (1-based) of
the counter vector and resets all deeper components to zero; missing
components up to `level` are treated as zero. -/
def stepVec : List Int → Nat → Int → List Int
  | v, 0, _ => v
  | v, 1, amount => (v.headD 0 + amount) :: zeroAll v.tail
  | v, l + 2, amount => v.headD 0 :: stepVec v.tail (l + 1) amount

/-- Modelled from the spec: a reset sets component `level` (1-based) and all
deeper components to zero. -/
def resetVec : List Int → Nat → List Int
  | v, 0 => v
  | v, 1 => zeroAll v
  | v, l + 2 => v.headD 0 :: resetVec v.tail (l + 1)

/-- Component `level` (1-based) of a counter vector; missing components read
as zero. -/
def component (v : List Int) (level : Nat) : Int :=
  v.getD (level - 1) 0

/-- Apply one update to a counter vector. -/
def applyUpdate (v : List Int) : Update → List Int
  | .set w => w
  | .step level amount => stepVec v level amount
  | .reset level => resetVec v level

/-- One counter's update log: `(Location, update)` pairs in document
declaration order. -/
abbrev UpdateLog := List (Location × Update)

/-- Modelled from the spec: the all-zero vector a counter query starts from. -/
def initVector : List Int := [0]

/-- Stable insertion of one log entry: the entry goes after every entry whose
Location is `≤` its own, so entries sharing a Location keep declaration
order. -/
def insertLog (e : Location × Update) : UpdateLog → UpdateLog
  | [] => [e]
  | f :: rest =>
      if Location.le f.1 e.1 then f :: insertLog e rest else e :: f :: rest

/-- Modelled from the spec: sort a log into Location order, stably, by
inserting the entries in declaration order. -/
def sortLog (log : UpdateLog) : UpdateLog :=
  log.foldl (fun acc e => insertLog e acc) []

/-- Fold a sorted log from a start vector, applying exactly the entries whose
Location is `≤` the query point. -/
def queryLoop (a : Location) : List Int → UpdateLog → List Int
  | v, [] => v
  | v, e :: rest =>
      queryLoop a (if Location.le e.1 a then applyUpdate v e.2 else v) rest

/-- Modelled from the spec: `at(C, a)` / `query(name, location)` — fold the
previous stabilized snapshot's updates with Location `≤ a`, in Location order
with ties in declaration order, starting from the all-zero vector. -/
def queryLog (log : UpdateLog) (a : Location) : List Int :=
  queryLoop a initVector (sortLog log)

/-- A snapshot's update logs: one log per state name, in the order names
first appeared. -/
abbrev StateLogs := List (StateName × UpdateLog)

/-- The log recorded for one name (empty if the name never appeared). -/
def docLog (logs : StateLogs) (name : StateName) : UpdateLog :=
  match logs with
  | [] => []
  | e :: rest => if e.1 = name then e.2 else docLog rest name

/-- Append one update to the log of `name`, preserving all other logs. -/
def appendUpdate (logs : StateLogs) (name : StateName) (l : Location) (u : Update) :
    StateLogs :=
  match logs with
  | [] => [(name, [(l, u)])]
  | e :: rest =>
      if e.1 = name then (e.1, e.2 ++ [(l, u)]) :: rest
      else e :: appendUpdate rest name l u

/-- Diagnostics recorded during a pass. -/
inductive Diag where
  | duplicateLabel (label : String)
  | undefinedLabel (label : String)
deriving DecidableEq, Repr

/-- A structural node is identified abstractly by an id. -/
abbrev NodeId := Nat

/-- First binding of a label in a registry's entry list. -/
def lookupLabel (entries : List (String × NodeId)) (label : String) : Option NodeId :=
  match entries with
  | [] => none
  | e :: rest => if e.1 = label then some e.2 else lookupLabel rest label

/-- Modelled from the spec: the label registry of one pass, together with the
diagnostics recorded so far.  The `reference` module body is not under
`src/`. -/
structure LabelRegistry where
  entries : List (String × NodeId)
  diags : List Diag
deriving DecidableEq, Repr

/-- Modelled from the spec: `declare_label(label, node)` — a duplicate label
records a DuplicateLabel diagnostic and leaves the entries untouched (the
pass is not aborted: the registry is still returned); a fresh label is
appended. -/
def declareLabel (r : LabelRegistry) (label : String) (node : NodeId) : LabelRegistry :=
  match lookupLabel r.entries label with
  | some _ => { r with diags := r.diags ++ [.duplicateLabel label] }
  | none => { r with entries := r.entries ++ [(label, node)] }

/-- Build a registry by declaring a list of `(label, node)` pairs in order,
starting from an empty registry. -/
def buildRegistry (decls : List (String × NodeId)) : LabelRegistry :=
  decls.foldl (fun r d => declareLabel r d.1 d.2) ⟨[], []⟩

/-- Modelled from the spec: `resolve(label)` — look the label up in a
registry's entries; absence is an UndefinedLabel condition. -/
def resolveLabel (entries : List (String × NodeId)) (label : String) :
    Except Diag NodeId :=
  match lookupLabel entries label with
  | some n => .ok n
  | none => .error (.undefinedLabel label)

/-- Modelled from the spec: the complete, immutable record of one pass — the
update logs, the registration log, the citation log, and the label
registry entries. -/
structure Snapshot where
  logs : StateLogs
  registrations : List (Location × NodeId)
  citations : List (String × Location)
  registry : List (String × NodeId)
deriving DecidableEq, Repr

/-- The empty snapshot the very first pass runs against. -/
def emptySnapshot : Snapshot := ⟨[], [], [], []⟩

/-- Modelled from the spec: the context of an in-progress pass — the previous
stabilized snapshot read by queries, and the in-progress logs being
accumulated. -/
structure PassCtx where
  prev : Snapshot
  current : Snapshot
deriving DecidableEq, Repr

/-- Modelled from the spec: `query(name, location)` during a pass — folds
updates from the previous stabilized snapshot only. -/
def queryState (ctx : PassCtx) (name : StateName) (a : Location) : List Int :=
  queryLog (docLog ctx.prev.logs name) a

/-- Modelled from the spec: label resolution during a pass happens against the
previous stabilized snapshot's registry. -/
def resolveRef (ctx : PassCtx) (label : String) : Except Diag NodeId :=
  resolveLabel ctx.prev.registry label

/-- Modelled from the spec: `set(name, location, value)` appends a set-update
to the in-progress pass's log for `name`. -/
def setState (ctx : PassCtx) (name : StateName) (l : Location) (value : List Int) :
    PassCtx :=
  { ctx with current :=
      { ctx.current with logs := appendUpdate ctx.current.logs name l (.set value) } }

/-- Modelled from the spec: reset-rule wiring — static configuration mapping a
counter to the counters that reset whenever it is stepped. -/
abbrev ResetRules := StateName → List StateName

/-- Modelled from the spec: `step(counter, location, level, amount)` appends a
step-update for the counter, and a reset (of component 1 and deeper, i.e. the
whole vector) for every counter whose reset rule is tied to it. -/
def stepCounter (rules : ResetRules) (logs : StateLogs) (c : StateName)
    (l : Location) (level : Nat) (amount : Int) : StateLogs :=
  (rules c).foldl (fun d b => appendUpdate d b l (.reset 1))
    (appendUpdate logs c l (.step level amount))

/-- The location with path `[n]` and discriminator 0, for concrete scenarios. -/
def locAt (n : Nat) : Location := ⟨[n], 0⟩

/-- Reset rules of the two-counter scenario: counter B resets whenever
counter A is stepped. -/
def abRules : ResetRules := fun c => if c = "A" then ["B"] else []

/-- The scenario snapshot logs: step counter A's level-1 component twice. -/
def scenarioLogs : StateLogs :=
  stepCounter abRules (stepCounter abRules [] "A" (locAt 1) 1 1) "A" (locAt 2) 1 1

/-! ### Fixed-point driver, modelled from the spec -/

/-- Modelled from the spec: the driver's final outcome — `stable` carries the
stabilized snapshot and the number of passes executed; `diverged` carries the
names of the States/Counters whose logs changed on the final two passes. -/
inductive DriverResult where
  | stable (snap : Snapshot) (passes : Nat)
  | diverged (names : List StateName)
deriving DecidableEq, Repr

/-- The names carrying a log in a snapshot. -/
def logNames (logs : StateLogs) : List StateName := logs.map Prod.fst

/-- Modelled from the spec: the State/Counter names whose update logs differ
between two snapshots. -/
def changedNames (old new : Snapshot) : List StateName :=
  (logNames old.logs ++ logNames new.logs).dedup.filter fun n =>
    docLog old.logs n != docLog new.logs n

/-- Modelled from the spec: the driver loop — run a pass against the previous
snapshot; if the produced logs are structurally equal to the previous ones the
run is Stable, otherwise feed the new snapshot back; when the iteration budget
runs out, Diverged, reporting the names that changed on the final two
passes. -/
def driverLoop (pass : Snapshot → Snapshot) (prev : Snapshot)
    (lastDiff : List StateName) (done : Nat) : Nat → DriverResult
  | 0 => .diverged lastDiff
  | n + 1 =>
      let next := pass prev
      if next = prev then .stable next (done + 1)
      else driverLoop pass next (changedNames prev next) (done + 1) n

/-- Modelled from the spec: run the driver from the Initial state (the empty
snapshot) with the given iteration cap. -/
def driverRun (pass : Snapshot → Snapshot) (cap : Nat) : DriverResult :=
  driverLoop pass emptySnapshot [] 0 cap

/-- The snapshot produced by iterating `pass` `n` times from the empty
snapshot. -/
def snapIter (pass : Snapshot → Snapshot) : Nat → Snapshot
  | 0 => emptySnapshot
  | n + 1 => pass (snapIter pass n)

/-- Modelled from the spec: a contrived circular document — each of two
counters sets its value by stepping the other's queried value, so the logs
never stabilize. -/
def circPass : Snapshot → Snapshot := fun prev =>
  let xv := queryLog (docLog prev.logs "x") (locAt 2)
  let yv := queryLog (docLog prev.logs "y") (locAt 2)
  ⟨[("x", [(locAt 1, .set (stepVec yv 1 1))]),
    ("y", [(locAt 2, .set (stepVec xv 1 1))])], [], [], []⟩

/-- Modelled from the spec: how one pass ends — completed with its logs, or
abandoned mid-walk (host cancellation), or aborted by a fatal error; the two
abnormal endings carry only partial logs. -/
inductive PassOutcome where
  | completed (log : Snapshot)
  | fatal (partialLog : Snapshot)
  | aborted (partialLog : Snapshot)
deriving DecidableEq, Repr

/-- Modelled from the spec: promotion of a pass result to previous-snapshot
status — only a completed pass's logs are promoted; a fatal or abandoned pass
leaves the previous stabilized snapshot untouched. -/
def promote (prev : Snapshot) : PassOutcome → Snapshot
  | .completed log => log
  | .fatal _ => prev
  | .aborted _ => prev

/-- Whether a pass ended abnormally (fatal error or abandoned). -/
def PassOutcome.abnormal : PassOutcome → Prop
  | .completed _ => False
  | .fatal _ => True
  | .aborted _ => True

/-- Fold a sequence of pass outcomes over the previous snapshot. -/
def runPasses (prev : Snapshot) (outcomes : List PassOutcome) : Snapshot :=
  outcomes.foldl promote prev

/-! ### Numbering, modelled from the spec -/

/-- Modelled from the spec: the counting styles a numbering placeholder can
carry.  The `numbering` module body is not under `src/`. -/
inductive NumKind where
  | arabic
  | letterLower
  | letterUpper
  | romanLower
  | romanUpper
  | symbol
deriving DecidableEq, Repr

/-- Roman numeral building blocks, largest first. -/
def romanPairs : List (Nat × String) :=
  [(1000, "M"), (900, "CM"), (500, "D"), (400, "CD"), (100, "C"), (90, "XC"),
   (50, "L"), (40, "XL"), (10, "X"), (9, "IX"), (5, "V"), (4, "IV"), (1, "I")]

/-- Greedy roman numeral rendering; the fuel bounds the recursion and `n`
itself always suffices since every stage subtracts at least one. -/
def romanAux : Nat → Nat → String
  | 0, _ => ""
  | fuel + 1, n =>
      if n = 0 then "" else
      match romanPairs.find? (fun p => decide (p.1 ≤ n)) with
      | some p => p.2 ++ romanAux fuel (n - p.1)
      | none => ""

/-- Uppercase roman numeral of a positive count. -/
def romanUpper (n : Nat) : String := romanAux n n

/-- Bijective base-26 letter rendering: 1 ↦ A, 26 ↦ Z, 27 ↦ AA. -/
def letterAux : Nat → Nat → String
  | 0, _ => ""
  | fuel + 1, n =>
      if n = 0 then "" else
      letterAux fuel ((n - 1) / 26) ++ String.singleton (Char.ofNat (65 + (n - 1) % 26))

/-- Uppercase letter rendering of a positive count. -/
def letterUpper (n : Nat) : String := letterAux n n

/-- The symbol cycle used by the symbol counting style. -/
def symbolList : List String := ["*", "†", "‡", "§", "¶", "‖"]

/-- Symbol rendering: cycle through the symbol list. -/
def symbolFor (n : Nat) : String :=
  if n = 0 then "" else symbolList.getD ((n - 1) % symbolList.length) "*"

/-- Render one counter component in a counting style. -/
def renderKind (k : NumKind) (n : Int) : String :=
  match k with
  | .arabic => toString n
  | .letterLower => (letterUpper n.toNat).toLower
  | .letterUpper => letterUpper n.toNat
  | .romanLower => (romanUpper n.toNat).toLower
  | .romanUpper => romanUpper n.toNat
  | .symbol => symbolFor n.toNat

/-- The placeholder characters of a numbering pattern and their styles. -/
def kindOfChar : Char → Option NumKind
  | '1' => some .arabic
  | 'a' => some .letterLower
  | 'A' => some .letterUpper
  | 'i' => some .romanLower
  | 'I' => some .romanUpper
  | '*' => some .symbol
  | _ => none

/-- Modelled from the spec: a parsed numbering pattern — an ordered sequence
of pieces, each a literal text run followed by a counting-style placeholder,
plus the trailing literal suffix. -/
structure NumPattern where
  pieces : List (String × NumKind)
  suffix : String
deriving DecidableEq, Repr

/-- Scan the pattern characters, splitting at placeholder characters;
`lit` accumulates the literal run before the next placeholder. -/
def parseAux : List Char → String → List (String × NumKind) × String
  | [], lit => ([], lit)
  | c :: rest, lit =>
      match kindOfChar c with
      | some k =>
          let (ps, suf) := parseAux rest ""
          ((lit, k) :: ps, suf)
      | none => parseAux rest (lit.push c)

/-- Parse a numbering pattern string into pieces and suffix. -/
def parsePattern (s : String) : NumPattern :=
  let (ps, suf) := parseAux s.toList ""
  ⟨ps, suf⟩

/-- Render the counter components against the pieces in order; once the
pieces are exhausted the cycling piece `cyc` (the last placeholder, with its
cycling separator) is reused for every remaining component. -/
def applyAux (cyc : String × NumKind) :
    List (String × NumKind) → List Int → String
  | _, [] => ""
  | [], n :: ns => cyc.1 ++ renderKind cyc.2 n ++ applyAux cyc [] ns
  | p :: ps, n :: ns => p.1 ++ renderKind p.2 n ++ applyAux cyc ps ns

/-- Modelled from the spec: apply a pattern to a counter vector — each
component consumes one placeholder piece; a vector longer than the pattern
cycles the last placeholder (separated by the suffix when there is one,
otherwise by the last piece's own literal); the suffix is appended at the
end.  A pattern with no placeholder renders as its literal text alone. -/
def applyPattern (pat : NumPattern) (nums : List Int) : String :=
  match pat.pieces.getLast? with
  | none => pat.suffix
  | some lastPiece =>
      let cycSep := if pat.suffix = "" then lastPiece.1 else pat.suffix
      applyAux (cycSep, lastPiece.2) pat.pieces nums ++ pat.suffix

/-- Modelled from the spec: `display(counter vector, pattern)` — format the
vector through the parsed pattern.  Pure function. -/
def displayNumbering (nums : List Int) (pattern : String) : String :=
  applyPattern (parsePattern pattern) nums

/-! ### Concrete instances used to exercise the theorems -/

/-- A concrete environment whose loader always resolves to hash 7 and whose
SVG front-end accepts every buffer. -/
def envW : ImageEnv where
  resolve := fun _ => .ok 7
  loadData := fun _ => .ok [1]
  treeFromData := fun _ => .ok 42
  guessFormat := fun _ => .ok (some 0)
  decode := fun _ => .ok 0

/-- A concrete environment whose SVG front-end reports the element-limit
error (an `Other`-kind io error) on every buffer. -/
def envLimit : ImageEnv where
  resolve := fun _ => .ok 7
  loadData := fun _ => .ok [1]
  treeFromData := fun _ => .error .elementsLimitReached
  guessFormat := fun _ => .ok (some 0)
  decode := fun _ => .ok 0

/-- The store produced by one successful load through `envW`. -/
def storeW : ImageStore := ⟨[(7, 0)], [.svg ⟨42⟩]⟩

/-- A concrete one-entry label registry. -/
def regW : LabelRegistry := ⟨[("intro", 1)], []⟩

/-- A concrete non-empty snapshot. -/
def snapW : Snapshot := ⟨[("A", [(locAt 1, .step 1 1)])], [], [], []⟩

/-! ## Lemmas about the image store -/

theorem lookupHash_append_self {files : List (FileHash × ImageId)} {h : FileHash}
    {id : ImageId} (hnone : lookupHash files h = none) :
    lookupHash (files ++ [(h, id)]) h = some id := by
  induction files with
  | nil => simp [lookupHash]
  | cons e rest ih =>
      rw [lookupHash] at hnone
      by_cases he : e.1 = h
      · rw [if_pos he] at hnone; exact absurd hnone (by simp)
      · rw [if_neg he] at hnone
        simpa [lookupHash, he] using ih hnone

theorem lookupHash_mem {files : List (FileHash × ImageId)} {h : FileHash}
    {id : ImageId} (hsome : lookupHash files h = some id) :
    (h, id) ∈ files := by
  induction files with
  | nil => simp [lookupHash] at hsome
  | cons e rest ih =>
      rw [lookupHash] at hsome
      by_cases he : e.1 = h
      · rw [if_pos he] at hsome
        have : e = (h, id) := by
          cases e; simp_all
        simp [this]
      · rw [if_neg he] at hsome
        exact List.mem_cons_of_mem _ (ih hsome)

/-- After a successful `load` that resolved `path` to `hash`, the `files` map
binds `hash` to the returned id. -/
theorem load_files_lookup {env : ImageEnv} {s s₁ : ImageStore} {p : FilePath}
    {id : ImageId} {h : FileHash}
    (hload : ImageStore.load env s p = .ok (id, s₁))
    (hres : env.resolve p = .ok h) :
    lookupHash s₁.files h = some id := by
  simp only [ImageStore.load, hres] at hload
  cases hl : lookupHash s.files h with
  | some id₀ =>
      simp only [hl, Except.ok.injEq, Prod.mk.injEq] at hload
      rw [← hload.2, hl, hload.1]
  | none =>
      simp only [hl] at hload
      cases hd : env.loadData p with
      | error e => simp [hd] at hload
      | ok buffer =>
          simp only [hd] at hload
          cases hp : Image.parse env buffer with
          | error e => simp [hp] at hload
          | ok image =>
              simp only [hp, Except.ok.injEq, Prod.mk.injEq] at hload
              rw [← hload.2]
              exact hload.1 ▸ lookupHash_append_self hl

/-- C8: `ImageStore::load` caches by resolved file hash — if a load succeeds
with id `id` and store `s₁`, then a later load (under any environment `env'`,
in particular one whose file loading and parsing behave arbitrarily, so the
file is not parsed again) of a path resolving to the same file hash returns
the same id and leaves the store, hence the stored image vector,
unchanged. -/
theorem imageStore_load_cached (env env' : ImageEnv) (s s₁ : ImageStore)
    (p p' : FilePath) (id : ImageId) (h : FileHash)
    (h₁ : ImageStore.load env s p = .ok (id, s₁))
    (h₂ : env.resolve p = .ok h)
    (h₃ : env'.resolve p' = .ok h) :
    ImageStore.load env' s₁ p' = .ok (id, s₁) ∧
      (ImageStore.load env' s₁ p').map (fun r => r.2.images) = .ok s₁.images := by
  have hlook : lookupHash s₁.files h = some id := load_files_lookup h₁ h₂
  have hsec : ImageStore.load env' s₁ p' = .ok (id, s₁) := by
    simp [ImageStore.load, h₃, hlook]
  exact ⟨hsec, by rw [hsec]; rfl⟩

/-- Witness for C8 at a concrete environment and store: the second load hits
the cache. -/
theorem imageStore_load_cached_witness :
    ImageStore.load envW storeW "q" = .ok (0, storeW) ∧
      (ImageStore.load envW storeW "q").map (fun r => r.2.images) = .ok storeW.images :=
  imageStore_load_cached envW envW ImageStore.new storeW "p" "q" 0 7
    rfl rfl rfl

/-- C9: a successful `load` on a well-formed, non-full store returns an id
that indexes the image vector in bounds, the store stays well-formed, `get`
on that id does not panic, and when the hash was vacant `get` returns exactly
the image decoded from the loaded file. -/
theorem imageStore_get_in_bounds (env : ImageEnv) (s s₁ : ImageStore)
    (p : FilePath) (id : ImageId)
    (hwf : s.WF) (hsmall : s.images.length < 2 ^ 32)
    (hload : ImageStore.load env s p = .ok (id, s₁)) :
    id < s₁.images.length ∧ s₁.WF ∧
      (∃ img, ImageStore.get s₁ id = some img) ∧
      ∀ h buffer image, env.resolve p = .ok h → lookupHash s.files h = none →
        env.loadData p = .ok buffer → Image.parse env buffer = .ok image →
        ImageStore.get s₁ id = some image := by
  cases hres : env.resolve p with
  | error e => simp [ImageStore.load, hres] at hload
  | ok h =>
      simp only [ImageStore.load, hres] at hload
      cases hl : lookupHash s.files h with
      | some id₀ =>
          simp only [hl, Except.ok.injEq, Prod.mk.injEq] at hload
          obtain ⟨hid, hs⟩ := hload
          have hmem : (h, id) ∈ s.files := hid ▸ lookupHash_mem hl
          have hbound : id < s₁.images.length := hs ▸ hwf _ hmem
          obtain ⟨img, himg⟩ : ∃ img, s₁.images.get? id = some img := by
            rw [List.get?_eq_get hbound]; exact ⟨_, rfl⟩
          refine ⟨hbound, hs ▸ hwf, ⟨img, himg⟩, ?_⟩
          intro h' buffer image hres' hl' _ _
          injection hres' with hh
          rw [← hh, hl] at hl'
          cases hl'
      | none =>
          simp only [hl] at hload
          cases hd : env.loadData p with
          | error e => simp [hd] at hload
          | ok buffer =>
              simp only [hd] at hload
              cases hp : Image.parse env buffer with
              | error e => simp [hp] at hload
              | ok image =>
                  simp only [hp, Except.ok.injEq, Prod.mk.injEq] at hload
                  obtain ⟨hid, hs⟩ := hload
                  have hidlen : id = s.images.length := by
                    rw [← hid]; exact Nat.mod_eq_of_lt hsmall
                  have himages : s₁.images = s.images ++ [image] := by rw [← hs]
                  have hget : ImageStore.get s₁ id = some image := by
                    rw [ImageStore.get, himages, hidlen]
                    exact List.get?_concat_length s.images image
                  refine ⟨?_, ?_, ⟨image, hget⟩, ?_⟩
                  · rw [himages, hidlen]; simp
                  · intro e hmem
                    rw [← hs] at hmem
                    simp only [List.mem_append, List.mem_singleton] at hmem
                    rw [himages, List.length_append, List.length_singleton]
                    rcases hmem with hmem | hmem
                    · exact Nat.lt_succ_of_lt (hwf _ hmem)
                    · rw [hmem]
                      simp only
                      rw [Nat.mod_eq_of_lt hsmall]
                      exact Nat.lt_succ_self _
                  · intro h' buffer' image' hres' _ hd' hp'
                    injection hd' with hb
                    rw [← hb] at hp'
                    rw [hp] at hp'
                    injection hp' with hi
                    rw [← hi]
                    exact hget

/-- Witness for C9 at a concrete environment: the id returned by the first
load on the empty store indexes in bounds. -/
theorem imageStore_get_in_bounds_witness :
    (0 : ImageId) < storeW.images.length :=
  (imageStore_get_in_bounds envW ImageStore.new storeW "p" 0
    (by intro e he; simp [ImageStore.new] at he) (by decide) rfl).1

/-- C10: `Image::parse` prioritizes SVG — a successful SVG parse yields the
`Svg` variant; raster decoding is attempted exactly when SVG parsing fails
with an `InvalidData` error; any other SVG error is returned as-is, under any
behaviour of the raster decoder (so raster decoding is not attempted). -/
theorem image_parse_svg_first (env env' : ImageEnv) (data : Buffer) :
    (∀ t, env.treeFromData data = .ok t →
      Image.parse env data = .ok (.svg ⟨t⟩)) ∧
    (∀ e, Svg.parse env data = .error e → e.kind = .invalidData →
      Image.parse env data = (RasterImage.parse env data).map .raster) ∧
    (∀ e, Svg.parse env data = .error e → e.kind ≠ .invalidData →
      env'.treeFromData = env.treeFromData →
      Image.parse env' data = .error e) := by
  refine ⟨?_, ?_, ?_⟩
  · intro t ht
    simp [Image.parse, Svg.parse, ht]
  · intro e he hkind
    simp only [Image.parse, he]
    rw [if_pos hkind]
    cases RasterImage.parse env data <;> simp [Except.map]
  · intro e he hkind htree
    have hsvg : Svg.parse env' data = Svg.parse env data := by
      rw [Svg.parse, Svg.parse, htree]
    simp only [Image.parse, hsvg, he]
    rw [if_neg hkind]

/-- Witness for C10: the element-limit error (kind `Other`) is returned
as-is, without raster decoding being attempted — here the raster decoder
would succeed, yet the error still propagates. -/
theorem image_parse_svg_first_witness :
    Image.parse envLimit [1] =
      .error ⟨.other, "SVG file has more than 1 million elements"⟩ :=
  (image_parse_svg_first envLimit envLimit [1]).2.2
    ⟨.other, "SVG file has more than 1 million elements"⟩
    rfl (by decide) rfl

/-! ## Lemmas about the Location order -/

theorem pathLe_refl (l : List Nat) : pathLe l l = true := by
  induction l with
  | nil => rfl
  | cons a as ih => simp [pathLe, Nat.lt_irrefl, ih]

theorem locLe_refl (a : Location) : Location.le a a = true := by
  simp [Location.le]

theorem pathLe_total (a b : List Nat) : pathLe a b = true ∨ pathLe b a = true := by
  induction a generalizing b with
  | nil => left; rfl
  | cons x xs ih =>
      cases b with
      | nil => right; rfl
      | cons y ys =>
          rcases Nat.lt_trichotomy x y with h | h | h
          · left; simp [pathLe, h]
          · subst h
            rcases ih ys with h' | h'
            · left; simp [pathLe, Nat.lt_irrefl, h']
            · right; simp [pathLe, Nat.lt_irrefl, h']
          · right; simp [pathLe, h]

theorem pathLe_trans {a b c : List Nat} (h₁ : pathLe a b = true)
    (h₂ : pathLe b c = true) : pathLe a c = true := by
  induction a generalizing b c with
  | nil => rfl
  | cons x xs ih =>
      cases b with
      | nil => simp [pathLe] at h₁
      | cons y ys =>
          cases c with
          | nil => simp [pathLe] at h₂
          | cons z zs =>
              rcases Nat.lt_trichotomy x y with hxy | rfl | hyx
              · rcases Nat.lt_trichotomy y z with hyz | rfl | hzy
                · simp [pathLe, Nat.lt_trans hxy hyz]
                · simp [pathLe, hxy]
                · simp [pathLe, Nat.lt_asymm hzy, hzy] at h₂
              · have h₁' : pathLe xs ys = true := by
                  simpa [pathLe, Nat.lt_irrefl] using h₁
                rcases Nat.lt_trichotomy x z with hxz | rfl | hzx
                · simp [pathLe, hxz]
                · have h₂' : pathLe ys zs = true := by
                    simpa [pathLe, Nat.lt_irrefl] using h₂
                  simp [pathLe, Nat.lt_irrefl, ih h₁' h₂']
                · simp [pathLe, Nat.lt_asymm hzx, hzx] at h₂
              · simp [pathLe, Nat.lt_asymm hyx, hyx] at h₁

theorem pathLe_antisymm {a b : List Nat} (h₁ : pathLe a b = true)
    (h₂ : pathLe b a = true) : a = b := by
  induction a generalizing b with
  | nil =>
      cases b with
      | nil => rfl
      | cons y ys => simp [pathLe] at h₂
  | cons x xs ih =>
      cases b with
      | nil => simp [pathLe] at h₁
      | cons y ys =>
          rcases Nat.lt_trichotomy x y with hxy | rfl | hyx
          · simp [pathLe, Nat.lt_asymm hxy, hxy] at h₂
          · have h₁' : pathLe xs ys = true := by
              simpa [pathLe, Nat.lt_irrefl] using h₁
            have h₂' : pathLe ys xs = true := by
              simpa [pathLe, Nat.lt_irrefl] using h₂
            rw [ih h₁' h₂']
          · simp [pathLe, Nat.lt_asymm hyx, hyx] at h₁

theorem locLe_total (a b : Location) : Location.le a b = true ∨ Location.le b a = true := by
  by_cases hp : a.path = b.path
  · have hp' : b.path = a.path := hp.symm
    simp only [Location.le, if_pos hp, if_pos hp', decide_eq_true_eq]
    omega
  · have hp' : ¬ b.path = a.path := fun h => hp h.symm
    simp only [Location.le, if_neg hp, if_neg hp']
    exact pathLe_total _ _

theorem locLe_trans {a b c : Location} (h₁ : Location.le a b = true)
    (h₂ : Location.le b c = true) : Location.le a c = true := by
  unfold Location.le at h₁ h₂ ⊢
  by_cases hab : a.path = b.path
  · rw [if_pos hab] at h₁
    by_cases hbc : b.path = c.path
    · have hac : a.path = c.path := hab.trans hbc
      rw [if_pos hbc] at h₂
      rw [if_pos hac]
      simp only [decide_eq_true_eq] at h₁ h₂ ⊢
      omega
    · have hac : ¬ a.path = c.path := by rw [hab]; exact hbc
      rw [if_neg hbc] at h₂
      rw [if_neg hac, hab]
      exact h₂
  · rw [if_neg hab] at h₁
    by_cases hbc : b.path = c.path
    · have hac : ¬ a.path = c.path := by rw [← hbc]; exact hab
      rw [if_neg hac, ← hbc]
      exact h₁
    · rw [if_neg hbc] at h₂
      have hac : ¬ a.path = c.path := by
        intro h
        exact hab (pathLe_antisymm h₁ (h ▸ h₂))
      rw [if_neg hac]
      exact pathLe_trans h₁ h₂

/-! ## Lemmas about the stable sort and the query fold -/

theorem mem_insertLog {e g : Location × Update} {l : UpdateLog} :
    g ∈ insertLog e l ↔ g = e ∨ g ∈ l := by
  induction l with
  | nil => simp [insertLog]
  | cons f rest ih =>
      rw [insertLog]
      by_cases hle : Location.le f.1 e.1 = true
      · rw [if_pos hle]
        simp only [List.mem_cons, ih]
        tauto
      · rw [if_neg hle]
        simp only [List.mem_cons]

theorem insertLog_pairwise {e : Location × Update} {l : UpdateLog}
    (h : l.Pairwise fun e f => Location.le e.1 f.1 = true) :
    (insertLog e l).Pairwise fun e f => Location.le e.1 f.1 = true := by
  induction l with
  | nil => simp [insertLog]
  | cons f rest ih =>
      rw [List.pairwise_cons] at h
      obtain ⟨hf, hrest⟩ := h
      rw [insertLog]
      by_cases hle : Location.le f.1 e.1 = true
      · rw [if_pos hle, List.pairwise_cons]
        refine ⟨?_, ih hrest⟩
        intro g hg
        rcases mem_insertLog.mp hg with rfl | hg'
        · exact hle
        · exact hf g hg'
      · rw [if_neg hle]
        have hef : Location.le e.1 f.1 = true := by
          rcases locLe_total e.1 f.1 with h | h
          · exact h
          · exact absurd h hle
        rw [List.pairwise_cons]
        constructor
        · intro g hg
          rcases List.mem_cons.mp hg with rfl | hg'
          · exact hef
          · exact locLe_trans hef (hf g hg')
        · exact List.pairwise_cons.mpr ⟨hf, hrest⟩

theorem foldl_insertLog_pairwise (l : UpdateLog) (acc : UpdateLog)
    (h : acc.Pairwise fun e f => Location.le e.1 f.1 = true) :
    (List.foldl (fun acc e => insertLog e acc) acc l).Pairwise
      fun e f => Location.le e.1 f.1 = true := by
  induction l generalizing acc with
  | nil => exact h
  | cons e rest ih => exact ih _ (insertLog_pairwise h)

theorem sortLog_pairwise (log : UpdateLog) :
    (sortLog log).Pairwise fun e f => Location.le e.1 f.1 = true :=
  foldl_insertLog_pairwise log [] (by simp)

theorem insertLog_filter {e : Location × Update} {l : UpdateLog} {l₀ : Location}
    (h : l.Pairwise fun e f => Location.le e.1 f.1 = true) :
    (insertLog e l).filter (fun f => decide (f.1 = l₀)) =
      if e.1 = l₀ then l.filter (fun f => decide (f.1 = l₀)) ++ [e]
      else l.filter fun f => decide (f.1 = l₀) := by
  induction l with
  | nil =>
      by_cases he : e.1 = l₀ <;> simp [insertLog, List.filter, he]
  | cons f rest ih =>
      rw [List.pairwise_cons] at h
      obtain ⟨hf, hrest⟩ := h
      rw [insertLog]
      by_cases hle : Location.le f.1 e.1 = true
      · rw [if_pos hle]
        by_cases hfl : f.1 = l₀ <;> by_cases hel : e.1 = l₀ <;>
          simp [List.filter_cons, hfl, hel, ih hrest]
      · rw [if_neg hle]
        by_cases hel : e.1 = l₀
        · have hnone : ∀ g ∈ f :: rest, ¬ g.1 = l₀ := by
            intro g hg hgl
            have hge : Location.le f.1 g.1 = true := by
              rcases List.mem_cons.mp hg with rfl | hg'
              · exact locLe_refl _
              · exact hf g hg'
            apply hle
            rw [← hel] at hgl
            rw [← hgl]
            exact hge
          have hfilter : (f :: rest).filter (fun f => decide (f.1 = l₀)) = [] := by
            rw [List.filter_eq_nil]
            intro g hg
            simpa using hnone g hg
          simp [List.filter_cons, hel, hfilter]
        · simp [List.filter_cons, hel]

theorem foldl_insertLog_filter (l : UpdateLog) (acc : UpdateLog) (l₀ : Location)
    (h : acc.Pairwise fun e f => Location.le e.1 f.1 = true) :
    (List.foldl (fun acc e => insertLog e acc) acc l).filter
        (fun f => decide (f.1 = l₀)) =
      acc.filter (fun f => decide (f.1 = l₀)) ++
        l.filter fun f => decide (f.1 = l₀) := by
  induction l generalizing acc with
  | nil => simp
  | cons e rest ih =>
      rw [List.foldl_cons, ih _ (insertLog_pairwise h), insertLog_filter h]
      by_cases hel : e.1 = l₀
      · rw [if_pos hel]
        simp [List.filter_cons, hel, List.append_assoc]
      · rw [if_neg hel]
        simp [List.filter_cons, hel]

theorem sortLog_filter (log : UpdateLog) (l₀ : Location) :
    (sortLog log).filter (fun f => decide (f.1 = l₀)) =
      log.filter fun f => decide (f.1 = l₀) := by
  simpa using foldl_insertLog_filter log [] l₀ (by simp)

theorem insertLog_perm (e : Location × Update) (l : UpdateLog) :
    (insertLog e l).Perm (e :: l) := by
  induction l with
  | nil => simp [insertLog]
  | cons f rest ih =>
      rw [insertLog]
      by_cases hle : Location.le f.1 e.1 = true
      · rw [if_pos hle]
        exact (ih.cons f).trans (List.Perm.swap e f rest)
      · rw [if_neg hle]

theorem foldl_insertLog_perm (l : UpdateLog) (acc : UpdateLog) :
    (List.foldl (fun acc e => insertLog e acc) acc l).Perm (acc ++ l) := by
  induction l generalizing acc with
  | nil => simp
  | cons e rest ih =>
      rw [List.foldl_cons]
      refine (ih (insertLog e acc)).trans ?_
      refine (List.Perm.append_right rest (insertLog_perm e acc)).trans ?_
      exact List.perm_middle.symm

theorem sortLog_perm (log : UpdateLog) : (sortLog log).Perm log := by
  simpa using foldl_insertLog_perm log []

theorem queryLoop_filter (a : Location) (l : UpdateLog) (v : List Int) :
    queryLoop a v l =
      List.foldl (fun w e => applyUpdate w e.2)
        v (l.filter fun e => Location.le e.1 a) := by
  induction l generalizing v with
  | nil => rfl
  | cons e rest ih =>
      rw [queryLoop]
      by_cases hle : Location.le e.1 a = true
      · simp [hle, List.filter_cons, ih]
      · simp [hle, List.filter_cons, ih]

/-- C1: for every counter log and Location `a`, `at(C, a)` equals the fold,
from the all-zero vector, of exactly the snapshot updates with Location `≤ a`
over the sorted log; the sorted log is in Location order (`Pairwise`), is a
permutation of the declaration-order log, and entries sharing a Location keep
declaration order (the filter at each exact Location is unchanged); querying
before any step returns the all-zero vector rather than an error. -/
theorem counter_query_fold (log : UpdateLog) (a : Location) :
    queryLog log a =
      List.foldl (fun v e => applyUpdate v e.2) initVector
        ((sortLog log).filter fun e => Location.le e.1 a) ∧
    ((sortLog log).Pairwise fun e f => Location.le e.1 f.1 = true) ∧
    (sortLog log).Perm log ∧
    (∀ l₀, (sortLog log).filter (fun f => decide (f.1 = l₀)) =
      log.filter fun f => decide (f.1 = l₀)) ∧
    queryLog [] a = initVector ∧ ∀ x ∈ initVector, x = 0 :=
  ⟨queryLoop_filter a (sortLog log) initVector, sortLog_pairwise log,
    sortLog_perm log, fun l₀ => sortLog_filter log l₀, rfl, by decide⟩

/-- Witness for C1: the all-zero start vector is indeed all-zero. -/
theorem counter_query_fold_witness : (0 : Int) = 0 :=
  (counter_query_fold [] (locAt 0)).2.2.2.2.2 0 (by simp [initVector])

/-! ## Lemmas about counter vectors -/

theorem component_cons_succ (x : Int) (xs : List Int) (l : Nat) :
    component (x :: xs) (l + 2) = component xs (l + 1) := by
  simp [component]

theorem component_tail (v : List Int) (l : Nat) :
    component v.tail (l + 1) = component v (l + 2) := by
  cases v <;> simp [component]

theorem zeroAll_getD (v : List Int) (i : Nat) : (zeroAll v).getD i 0 = 0 := by
  induction v generalizing i with
  | nil => rfl
  | cons x xs ih =>
      cases i with
      | zero => rfl
      | succ j => simpa [zeroAll] using ih j

theorem comp_step_self (level : Nat) (hlevel : 1 ≤ level) (v : List Int) (n : Int) :
    component (stepVec v level n) level = component v level + n := by
  induction level generalizing v with
  | zero => omega
  | succ l ih =>
      cases l with
      | zero =>
          cases v <;> simp [stepVec, component]
      | succ l' =>
          have ih' := ih (Nat.succ_le_succ (Nat.zero_le l')) v.tail
          calc component (stepVec v (l' + 2) n) (l' + 2)
              = component (stepVec v.tail (l' + 1) n) (l' + 1) := by
                rw [stepVec, component_cons_succ]
            _ = component v.tail (l' + 1) + n := ih'
            _ = component v (l' + 2) + n := by rw [component_tail]

theorem comp_step_deeper (level : Nat) (hlevel : 1 ≤ level) (v : List Int)
    (n : Int) (j : Nat) (hj : level < j) :
    component (stepVec v level n) j = 0 := by
  induction level generalizing v j with
  | zero => omega
  | succ l ih =>
      cases l with
      | zero =>
          obtain ⟨k, rfl⟩ : ∃ k, j = k + 2 := ⟨j - 2, by omega⟩
          rw [stepVec, component_cons_succ]
          show (zeroAll v.tail).getD k 0 = 0
          exact zeroAll_getD v.tail k
      | succ l' =>
          obtain ⟨m, rfl⟩ : ∃ m, j = m + 2 := ⟨j - 2, by omega⟩
          rw [stepVec, component_cons_succ]
          exact ih (Nat.succ_le_succ (Nat.zero_le l')) v.tail (m + 1) (by omega)

theorem stepVec_nonneg (level : Nat) (v : List Int) (n : Int)
    (hv : ∀ x ∈ v, 0 ≤ x) (hn : 0 ≤ n) : ∀ x ∈ stepVec v level n, 0 ≤ x := by
  induction level generalizing v with
  | zero => exact hv
  | succ l ih =>
      intro x hx
      cases l with
      | zero =>
          rw [stepVec] at hx
          rcases List.mem_cons.mp hx with rfl | hx'
          · have hh : 0 ≤ v.headD 0 := by
              cases v with
              | nil => exact le_refl 0
              | cons a as => exact hv a (by simp)
            exact add_nonneg hh hn
          · rcases List.mem_map.mp hx' with ⟨a, _, h0⟩
            rw [← h0]
      | succ l' =>
          rw [stepVec] at hx
          rcases List.mem_cons.mp hx with rfl | hx'
          · cases v with
            | nil => exact le_refl 0
            | cons a as => exact hv a (by simp)
          · refine ih v.tail ?_ x hx'
            intro y hy
            exact hv y (List.mem_of_mem_tail hy)

/-- C2: `step` adds the amount to component `level` and zeroes every deeper
component; components stay non-negative when they were and the amount is;
and in the concrete two-counter document, stepping A's level-1 component
twice (each step resetting B) and then reading B yields B = [0]. -/
theorem counter_step_resets_deeper (v : List Int) (level : Nat) (amount : Int)
    (hlevel : 1 ≤ level) :
    component (stepVec v level amount) level = component v level + amount ∧
    (∀ j, level < j → component (stepVec v level amount) j = 0) ∧
    ((∀ x ∈ v, 0 ≤ x) → 0 ≤ amount → ∀ x ∈ stepVec v level amount, 0 ≤ x) ∧
    queryLog (docLog scenarioLogs "B") (locAt 3) = [0] :=
  ⟨comp_step_self level hlevel v amount,
    fun j hj => comp_step_deeper level hlevel v amount j hj,
    fun hv hn => stepVec_nonneg level v amount hv hn,
    by decide⟩

/-- Witness for C2 at a concrete vector: stepping level 1 by 2 adds 2 to the
first component. -/
theorem counter_step_resets_deeper_witness :
    component (stepVec [0, 5] 1 2) 1 = component [0, 5] 1 + 2 :=
  (counter_step_resets_deeper [0, 5] 1 2 (by decide)).1

/-- C4: queries and label resolutions during a pass depend only on the
previous stabilized snapshot: two contexts sharing `prev` but with arbitrary
in-progress logs answer identically, and appending an in-progress set-update
changes no query or resolution result. -/
theorem query_reads_previous_only (prev cur cur' : Snapshot) (name : StateName)
    (a : Location) (label : String) (ctx : PassCtx) (n : StateName)
    (l : Location) (value : List Int) :
    queryState ⟨prev, cur⟩ name a = queryState ⟨prev, cur'⟩ name a ∧
    resolveRef ⟨prev, cur⟩ label = resolveRef ⟨prev, cur'⟩ label ∧
    queryState (setState ctx n l value) name a = queryState ctx name a ∧
    resolveRef (setState ctx n l value) label = resolveRef ctx label :=
  ⟨rfl, rfl, rfl, rfl⟩

/-! ## Lemmas about the label registry -/

theorem lookupLabel_none_not_mem {entries : List (String × NodeId)} {label : String}
    (h : lookupLabel entries label = none) : ∀ e ∈ entries, e.1 ≠ label := by
  induction entries with
  | nil => intro e he; cases he
  | cons f rest ih =>
      rw [lookupLabel] at h
      by_cases hf : f.1 = label
      · rw [if_pos hf] at h; cases h
      · rw [if_neg hf] at h
        intro e he
        rcases List.mem_cons.mp he with rfl | he'
        · exact hf
        · exact ih h e he'

theorem declareLabel_keys_pairwise (r : LabelRegistry) (label : String) (node : NodeId)
    (h : r.entries.Pairwise fun e f => e.1 ≠ f.1) :
    (declareLabel r label node).entries.Pairwise fun e f => e.1 ≠ f.1 := by
  rw [declareLabel]
  cases hl : lookupLabel r.entries label with
  | some n => exact h
  | none =>
      refine List.pairwise_append.mpr ⟨h, by simp, ?_⟩
      intro a ha b hb
      rcases List.mem_singleton.mp hb with rfl
      exact lookupLabel_none_not_mem hl a ha

theorem foldl_declare_keys_pairwise (decls : List (String × NodeId))
    (r : LabelRegistry) (h : r.entries.Pairwise fun e f => e.1 ≠ f.1) :
    (List.foldl (fun r d => declareLabel r d.1 d.2) r decls).entries.Pairwise
      fun e f => e.1 ≠ f.1 := by
  induction decls generalizing r with
  | nil => exact h
  | cons d rest ih => exact ih _ (declareLabel_keys_pairwise r d.1 d.2 h)

/-- C5: declaring an already-present label records a DuplicateLabel
diagnostic, leaves the entries untouched (no silent overwrite) so that
resolution still returns the first declaration, the pass continues (the
registry is returned, not an error), and registries built by declarations
have pairwise-distinct label keys. -/
theorem declare_label_duplicate (r : LabelRegistry) (label : String)
    (node node' : NodeId) (hfirst : lookupLabel r.entries label = some node) :
    (declareLabel r label node').entries = r.entries ∧
    (declareLabel r label node').diags = r.diags ++ [.duplicateLabel label] ∧
    resolveLabel (declareLabel r label node').entries label = .ok node ∧
    ∀ decls : List (String × NodeId),
      (buildRegistry decls).entries.Pairwise fun e f => e.1 ≠ f.1 := by
  have hdecl : declareLabel r label node' =
      { r with diags := r.diags ++ [.duplicateLabel label] } := by
    rw [declareLabel, hfirst]
  refine ⟨by rw [hdecl], by rw [hdecl], ?_, ?_⟩
  · rw [hdecl]
    show resolveLabel r.entries label = .ok node
    rw [resolveLabel, hfirst]
  · intro decls
    exact foldl_declare_keys_pairwise decls ⟨[], []⟩ (by simp)

/-- Witness for C5 at a concrete registry: a second declaration of "intro"
does not overwrite the first binding. -/
theorem declare_label_duplicate_witness :
    resolveLabel (declareLabel regW "intro" 2).entries "intro" = .ok 1 :=
  (declare_label_duplicate regW "intro" 1 2 rfl).2.2.1

/-- C6: a pass that raises a fatal error or is abandoned mid-walk never
changes the previous stabilized snapshot, and any sequence of abnormal
passes leaves it equal to what it was — partial logs are never promoted. -/
theorem failed_pass_keeps_snapshot (prev partialSnap : Snapshot)
    (outcomes : List PassOutcome) (hab : ∀ o ∈ outcomes, o.abnormal) :
    promote prev (.fatal partialSnap) = prev ∧
    promote prev (.aborted partialSnap) = prev ∧
    runPasses prev outcomes = prev := by
  have haux : ∀ (outs : List PassOutcome) (p : Snapshot),
      (∀ o ∈ outs, o.abnormal) → runPasses p outs = p := by
    intro outs
    induction outs with
    | nil => intro p _; rfl
    | cons o rest ih =>
        intro p h
        rw [runPasses, List.foldl_cons]
        have hpr : promote p o = p := by
          cases o with
          | completed log =>
              exact absurd (h (PassOutcome.completed log) (by simp))
                (by simp [PassOutcome.abnormal])
          | fatal q => rfl
          | aborted q => rfl
        rw [hpr]
        exact ih p fun o' ho' => h o' (List.mem_cons_of_mem _ ho')
  exact ⟨rfl, rfl, haux outcomes prev hab⟩

/-- Witness for C6 at a concrete snapshot: a fatal then an abandoned pass
leave it unchanged. -/
theorem failed_pass_keeps_snapshot_witness :
    runPasses snapW [.fatal emptySnapshot, .aborted emptySnapshot] = snapW :=
  (failed_pass_keeps_snapshot snapW emptySnapshot
    [.fatal emptySnapshot, .aborted emptySnapshot]
    (by intro o ho
        rcases List.mem_cons.mp ho with rfl | ho'
        · trivial
        · rcases List.mem_cons.mp ho' with rfl | ho''
          · trivial
          · cases ho'')).2.2

/-! ## Lemmas about the fixed-point driver -/

theorem driverLoop_stable (pass : Snapshot → Snapshot) :
    ∀ (remaining : Nat) (prev : Snapshot) (lastDiff : List StateName)
      (done : Nat) (s : Snapshot) (n : Nat),
      driverLoop pass prev lastDiff done remaining = .stable s n →
      n ≤ done + remaining ∧ pass s = s := by
  intro remaining
  induction remaining with
  | zero => intro prev lastDiff done s n h; cases h
  | succ m ih =>
      intro prev lastDiff done s n h
      rw [driverLoop] at h
      by_cases heq : pass prev = prev
      · rw [if_pos heq] at h
        cases h
        exact ⟨by omega, by rw [heq, heq]⟩
      · rw [if_neg heq] at h
        have := ih (pass prev) (changedNames prev (pass prev)) (done + 1) s n h
        exact ⟨by omega, this.2⟩

theorem driverLoop_diverged (pass : Snapshot → Snapshot) :
    ∀ (remaining k done : Nat) (d ns : List StateName),
      driverLoop pass (snapIter pass k) d done remaining = .diverged ns →
      (remaining = 0 ∧ ns = d) ∨
        ns = changedNames (snapIter pass (k + remaining - 1))
          (snapIter pass (k + remaining)) := by
  intro remaining
  induction remaining with
  | zero =>
      intro k done d ns h
      cases h
      exact Or.inl ⟨rfl, rfl⟩
  | succ m ih =>
      intro k done d ns h
      rw [driverLoop] at h
      by_cases heq : pass (snapIter pass k) = snapIter pass k
      · rw [if_pos heq] at h; cases h
      · rw [if_neg heq] at h
        have hnext : pass (snapIter pass k) = snapIter pass (k + 1) := rfl
        rw [hnext] at h
        rcases ih (k + 1) (done + 1)
            (changedNames (snapIter pass k) (pass (snapIter pass k))) ns h with
          ⟨hm, hns⟩ | hns
        · subst hm
          right
          rw [hns, hnext]
          have h₂ : k + (0 + 1) - 1 = k := by omega
          rw [h₂]
        · right
          have h₁ : k + 1 + m - 1 = k + (m + 1) - 1 := by omega
          have h₂ : k + 1 + m = k + (m + 1) := by omega
          rw [h₁, h₂] at hns
          exact hns

/-- C3: the driver, started in the Initial state, reaches within the
iteration cap either Stable — where the stabilization test is structural
equality of the produced logs, so the stable snapshot is a fixed point of the
pass — or Diverged; when it diverges with a positive cap, the reported
CircularDependency names are exactly the State/Counter names whose logs
changed between the final two passes; and the contrived circular two-counter
document diverges within cap 5, reporting both counters. -/
theorem driver_stable_or_diverged (pass : Snapshot → Snapshot) (cap : Nat) :
    ((∃ s n, driverRun pass cap = .stable s n ∧ n ≤ cap ∧ pass s = s) ∨
      ∃ ns, driverRun pass cap = .diverged ns) ∧
    (∀ ns, driverRun pass cap = .diverged ns → 1 ≤ cap →
      ns = changedNames (snapIter pass (cap - 1)) (snapIter pass cap)) ∧
    driverRun circPass 5 = .diverged ["x", "y"] := by
  refine ⟨?_, ?_, by decide⟩
  · cases hr : driverRun pass cap with
    | stable s n =>
        left
        have := driverLoop_stable pass cap emptySnapshot [] 0 s n hr
        exact ⟨s, n, rfl, by omega, this.2⟩
    | diverged ns => exact Or.inr ⟨ns, rfl⟩
  · intro ns hr hcap
    have h0 : snapIter pass 0 = emptySnapshot := rfl
    rcases driverLoop_diverged pass cap 0 0 [] ns (by rw [h0]; exact hr) with
      ⟨hc, _⟩ | hns
    · omega
    · simpa using hns

/-- Witness for C3: the circular document's reported names are exactly those
that changed between passes 4 and 5. -/
theorem driver_stable_or_diverged_witness :
    ["x", "y"] =
      changedNames (snapIter circPass 4) (snapIter circPass 5) :=
  (driver_stable_or_diverged circPass 5).2.1 ["x", "y"]
    (driver_stable_or_diverged circPass 5).2.2 (by omega)

/-! ## Lemmas about numbering -/

theorem applyAux_take (cyc cyc' : String × NumKind) :
    ∀ (nums : List Int) (pieces : List (String × NumKind)),
      nums.length ≤ pieces.length →
      applyAux cyc pieces nums = applyAux cyc' (pieces.take nums.length) nums := by
  intro nums
  induction nums with
  | nil => intro pieces _; cases pieces <;> rfl
  | cons n ns ih =>
      intro pieces h
      cases pieces with
      | nil => simp at h
      | cons p ps =>
          rw [List.length_cons, List.take_succ_cons, applyAux, applyAux]
          rw [ih ps (by simpa using h)]

theorem applyAux_cycle (cyc : String × NumKind) (nums : List Int) :
    applyAux cyc [] nums =
      (nums.map fun n => cyc.1 ++ renderKind cyc.2 n).foldr (· ++ ·) "" := by
  induction nums with
  | nil => rfl
  | cons n ns ih =>
      rw [applyAux, List.map_cons, List.foldr_cons, ih]

/-- C7: numbering display is a pure function with `display([1,2], "1.1") =
"1.2"`, `display([1], "I") = "I"`, and `display([3,1,4], "A.") = "C.A.D."`;
a vector no longer than the pattern consumes exactly its first
`nums.length` placeholder pieces (the cycling piece is irrelevant), and once
the pattern is exhausted the last placeholder cycles for every remaining
component. -/
theorem numbering_display_examples :
    displayNumbering [1, 2] "1.1" = "1.2" ∧
    displayNumbering [1] "I" = "I" ∧
    displayNumbering [3, 1, 4] "A." = "C.A.D." ∧
    (∀ (cyc cyc' : String × NumKind) (pieces : List (String × NumKind))
      (nums : List Int), nums.length ≤ pieces.length →
      applyAux cyc pieces nums = applyAux cyc' (pieces.take nums.length) nums) ∧
    ∀ (cyc : String × NumKind) (nums : List Int),
      applyAux cyc [] nums =
        (nums.map fun n => cyc.1 ++ renderKind cyc.2 n).foldr (· ++ ·) "" :=
  ⟨by decide, by decide, by decide,
    fun cyc cyc' pieces nums h => applyAux_take cyc cyc' nums pieces h,
    fun cyc nums => applyAux_cycle cyc nums⟩

/-- Witness for C7: a one-component vector against a one-piece pattern
consumes that piece whatever the cycling pieces are. -/
theorem numbering_display_examples_witness :
    applyAux ("", NumKind.arabic) [("", NumKind.arabic)] [5] =
      applyAux (".", NumKind.romanUpper)
        ([("", NumKind.arabic)].take 1) [5] :=
  numbering_display_examples.2.2.2.1 ("", NumKind.arabic)
    (".", NumKind.romanUpper) [("", NumKind.arabic)] [5] (by decide)

end Typst
